import Mathlib

set_option maxHeartbeats 1000000

/-!
Verification of the WaxEncounters client-side data-security layer.

The development shallowly embeds the three source components:
`WaxEncountersSecurity` (crypto primitives), `ServerValidation`
(validation / sanitization / rate limiting) and `SecureStorageManager`
(the secure record store).  Byte strings are `List Nat`, JavaScript
strings are `List Char`, JavaScript objects are association lists.

Browser / platform primitives that are not part of the repository
(`JSON.stringify` / `JSON.parse`, `btoa` / `atob`, WebCrypto AES-GCM,
PBKDF2 and SHA-256) are modelled by concrete executable functions that
honour the contracts the code relies on (serialization and transport
encoding invert, the keystream cipher inverts under the same key and
IV, digests are deterministic).  All control flow, data layout
(salt-IV-ciphertext concatenation and slicing at offsets 32 and 44),
field handling and validation logic is translated directly from the
source.
-/

/-- JSON values: the payloads `JSON.stringify` / `JSON.parse` work on. -/
inductive Json where
  | null : Json
  | bool (b : Bool) : Json
  | num (n : Int) : Json
  | str (s : List Char) : Json
  | arr (xs : List Json) : Json
  | obj (kvs : List (List Char × Json)) : Json

instance : Inhabited Json := ⟨Json.null⟩

/-- A JavaScript object, as an association list of its own properties. -/
abbrev JMap := List (List Char × Json)

/-- First-match association-list lookup, modelling JS property access `o[k]`
(`none` models `undefined`). -/
def lookupJ : JMap → List Char → Option Json
  | [], _ => none
  | kv :: rest, k => if kv.1 = k then some kv.2 else lookupJ rest k

/-- Object spread merge: models a JS object literal with two spreads, the
second (`b`) overriding same-named properties of the first (`a`). -/
def mergeJs (a b : JMap) : JMap :=
  a.map (fun kv => (kv.1, ((lookupJ b kv.1).getD kv.2))) ++
    b.filter (fun kv => (lookupJ a kv.1).isNone)

/-- Concatenation of byte lists. -/
def flatCat : List (List Nat) → List Nat
  | [] => []
  | l :: ls => l ++ flatCat ls

/-- Modelled platform primitive `JSON.stringify` composed with
`TextEncoder.encode`: an injective serialization of a JSON value into
abstract byte symbols.  The exact wire alphabet is not observable by the
repository code, which only passes the bytes to the cipher. -/
def serJson : Json → List Nat
  | .null => [0]
  | .bool b => [1, if b then 1 else 0]
  | .num n => [2, if n < 0 then 1 else 0, n.natAbs]
  | .str s => 3 :: s.length :: s.map Char.toNat
  | .arr xs => 4 :: xs.length :: flatCat (xs.attach.map (fun x => serJson x.1))
  | .obj kvs => 5 :: kvs.length ::
      flatCat (kvs.attach.map
        (fun kv => kv.1.1.length :: (kv.1.1.map Char.toNat ++ serJson kv.1.2)))
decreasing_by
  · have := List.sizeOf_lt_of_mem x.2
    simp only [Json.arr.sizeOf_spec]
    omega
  · have h := List.sizeOf_lt_of_mem kv.2
    rcases kv with ⟨⟨k, v⟩, hm⟩
    simp_all only [Prod.mk.sizeOf_spec, Json.obj.sizeOf_spec]
    omega

/-- Nesting depth of a JSON value; used to bound the parser fuel. -/
def depthJ : Json → Nat
  | .null => 1
  | .bool _ => 1
  | .num _ => 1
  | .str _ => 1
  | .arr xs => (xs.attach.map (fun x => depthJ x.1)).foldl max 0 + 1
  | .obj kvs => (kvs.attach.map (fun kv => depthJ kv.1.2)).foldl max 0 + 1
decreasing_by
  · have := List.sizeOf_lt_of_mem x.2
    simp only [Json.arr.sizeOf_spec]
    omega
  · have h := List.sizeOf_lt_of_mem kv.2
    rcases kv with ⟨⟨k, v⟩, hm⟩
    simp_all only [Prod.mk.sizeOf_spec, Json.obj.sizeOf_spec]
    omega

/-- Take exactly `n` bytes, failing when fewer are available. -/
def takeExact : Nat → List Nat → Option (List Nat × List Nat)
  | 0, bs => some ([], bs)
  | _ + 1, [] => none
  | n + 1, b :: bs => (takeExact n bs).map (fun r => (b :: r.1, r.2))

mutual

/-- Fuelled decoder for the modelled serialization; inverse of `serJson`. -/
def deJson : Nat → List Nat → Option (Json × List Nat)
  | 0, _ => none
  | f + 1, bs =>
    match bs with
    | 0 :: rest => some (.null, rest)
    | 1 :: b :: rest => some (.bool (b == 1), rest)
    | 2 :: sgn :: m :: rest =>
        some (.num (if sgn == 1 then -(m : Int) else (m : Int)), rest)
    | 3 :: len :: rest =>
        (takeExact len rest).map (fun r => (.str (r.1.map Char.ofNat), r.2))
    | 4 :: len :: rest =>
        (deList f len rest).map (fun r => (.arr r.1, r.2))
    | 5 :: len :: rest =>
        (deObj f len rest).map (fun r => (.obj r.1, r.2))
    | _ => none
termination_by f _ => (f, 0)

/-- Decode `n` consecutive JSON values. -/
def deList : Nat → Nat → List Nat → Option (List Json × List Nat)
  | _, 0, bs => some ([], bs)
  | f, n + 1, bs =>
    (deJson f bs).bind (fun jr =>
      (deList f n jr.2).map (fun xr => (jr.1 :: xr.1, xr.2)))
termination_by f n _ => (f, n + 1)

/-- Decode `n` consecutive key/value entries. -/
def deObj : Nat → Nat → List Nat → Option (List (List Char × Json) × List Nat)
  | _, 0, bs => some ([], bs)
  | f, n + 1, bs =>
    match bs with
    | [] => none
    | klen :: rest =>
      (takeExact klen rest).bind (fun kr =>
        (deJson f kr.2).bind (fun jr =>
          (deObj f n jr.2).map
            (fun or2 => ((kr.1.map Char.ofNat, jr.1) :: or2.1, or2.2))))
termination_by f n _ => (f, n + 1)

end

/-- Modelled platform primitive `TextDecoder.decode` composed with
`JSON.parse`: decodes a full byte string back into a JSON value, failing
on malformed or trailing input. -/
def jsonParse (bs : List Nat) : Option Json :=
  (deJson (bs.length + 1) bs).bind
    (fun jr => if jr.2 = [] then some jr.1 else none)

theorem takeExact_append (cs rest : List Nat) :
    takeExact cs.length (cs ++ rest) = some (cs, rest) := by
  induction cs with
  | nil => rfl
  | cons c cs ih => simp [takeExact, ih]

theorem flatCat_cons (l : List Nat) (ls : List (List Nat)) :
    flatCat (l :: ls) = l ++ flatCat ls := rfl

theorem length_le_flatCat (ls : List (List Nat)) (l : List Nat) (h : l ∈ ls) :
    l.length ≤ (flatCat ls).length := by
  induction ls with
  | nil => cases h
  | cons a as ih =>
    rcases List.mem_cons.mp h with h1 | h1
    · subst h1; simp [flatCat]
    · have := ih h1
      simp only [flatCat, List.length_append]
      omega

theorem foldl_max_le (l : List Nat) : ∀ b B : Nat, b ≤ B → (∀ a ∈ l, a ≤ B) →
    l.foldl max b ≤ B := by
  induction l with
  | nil => intro b B hb _; simpa using hb
  | cons a l ih =>
    intro b B hb h
    simp only [List.foldl_cons]
    exact ih _ _ (max_le hb (h a (by simp))) (fun x hx => h x (by simp [hx]))

theorem le_foldl_max (l : List Nat) : ∀ b : Nat, b ≤ l.foldl max b := by
  induction l with
  | nil => intro b; simp
  | cons a l ih =>
    intro b
    simp only [List.foldl_cons]
    exact le_trans (le_max_left b a) (ih _)

theorem mem_le_foldl_max (l : List Nat) (a : Nat) (h : a ∈ l) :
    ∀ b : Nat, a ≤ l.foldl max b := by
  induction l with
  | nil => cases h
  | cons c l ih =>
    intro b
    rcases List.mem_cons.mp h with h1 | h1
    · subst h1
      exact le_trans (le_max_right b a) (le_foldl_max l _)
    · exact ih h1 _

theorem depthJ_pos (j : Json) : 1 ≤ depthJ j := by
  cases j <;> simp [depthJ]

theorem depthJ_le : ∀ j : Json, depthJ j ≤ (serJson j).length
  | .null => by simp [depthJ, serJson]
  | .bool b => by simp [depthJ, serJson]
  | .num n => by simp [depthJ, serJson]
  | .str s => by simp [depthJ, serJson]
  | .arr xs => by
    have hx : ∀ x ∈ xs, depthJ x ≤ (serJson x).length := fun x hm =>
      have := List.sizeOf_lt_of_mem hm
      depthJ_le x
    have hd : depthJ (Json.arr xs) =
        (xs.map depthJ).foldl max 0 + 1 := by
      simp [depthJ, List.attach_map_val]
    have hser : serJson (Json.arr xs) =
        4 :: xs.length :: flatCat (xs.map serJson) := by
      simp [serJson, List.attach_map_val]
    have hb : (xs.map depthJ).foldl max 0 ≤
        1 + (flatCat (xs.map serJson)).length := by
      apply foldl_max_le
      · omega
      · intro a ha
        rcases List.mem_map.mp ha with ⟨x, hxm, rfl⟩
        have h1 := hx x hxm
        have h2 := length_le_flatCat (xs.map serJson) (serJson x)
          (List.mem_map_of_mem _ hxm)
        omega
    rw [hd, hser]
    simp only [List.length_cons]
    omega
  | .obj kvs => by
    have hx : ∀ kv ∈ kvs, depthJ kv.2 ≤ (serJson kv.2).length := fun kv hm =>
      have h := List.sizeOf_lt_of_mem hm
      depthJ_le kv.2
    have e1 : (kvs.attach.map (fun kv => depthJ kv.1.2)) =
        kvs.map (fun kv => depthJ kv.2) :=
      List.attach_map_val kvs (fun kv => depthJ kv.2)
    have e2 : (kvs.attach.map
          (fun kv => kv.1.1.length :: (kv.1.1.map Char.toNat ++ serJson kv.1.2))) =
        kvs.map (fun kv => kv.1.length :: (kv.1.map Char.toNat ++ serJson kv.2)) :=
      List.attach_map_val kvs
        (fun kv => kv.1.length :: (kv.1.map Char.toNat ++ serJson kv.2))
    have hd : depthJ (Json.obj kvs) =
        (kvs.map (fun kv => depthJ kv.2)).foldl max 0 + 1 := by
      simp [depthJ, e1]
    have hser : serJson (Json.obj kvs) = 5 :: kvs.length ::
        flatCat (kvs.map
          (fun kv => kv.1.length :: (kv.1.map Char.toNat ++ serJson kv.2))) := by
      simp [serJson, e2]
    have hb : (kvs.map (fun kv => depthJ kv.2)).foldl max 0 ≤
        1 + (flatCat (kvs.map
          (fun kv => kv.1.length :: (kv.1.map Char.toNat ++ serJson kv.2)))).length := by
      apply foldl_max_le
      · omega
      · intro a ha
        rcases List.mem_map.mp ha with ⟨kv, hm, rfl⟩
        have h1 := hx kv hm
        have h2 := length_le_flatCat
          (kvs.map (fun kv => kv.1.length :: (kv.1.map Char.toNat ++ serJson kv.2)))
          (kv.1.length :: (kv.1.map Char.toNat ++ serJson kv.2))
          (List.mem_map_of_mem
            (fun kv => kv.1.length :: (kv.1.map Char.toNat ++ serJson kv.2)) hm)
        simp only [List.length_cons, List.length_append] at h2
        omega
    rw [hd, hser]
    simp only [List.length_cons]
    omega
decreasing_by
  · simp only [Json.arr.sizeOf_spec]
    omega
  · rcases kv with ⟨k, v⟩
    simp_all only [Prod.mk.sizeOf_spec, Json.obj.sizeOf_spec]
    omega

theorem deList_ser (f : Nat)
    (hf : ∀ j rest, depthJ j ≤ f → deJson f (serJson j ++ rest) = some (j, rest)) :
    ∀ (xs : List Json) (rest : List Nat), (∀ x ∈ xs, depthJ x ≤ f) →
      deList f xs.length (flatCat (xs.map serJson) ++ rest) = some (xs, rest) := by
  intro xs
  induction xs with
  | nil => intro rest _; simp [flatCat, deList]
  | cons x xs ih =>
    intro rest h
    have h1 : deJson f (serJson x ++ (flatCat (xs.map serJson) ++ rest)) =
        some (x, flatCat (xs.map serJson) ++ rest) :=
      hf x _ (h x (by simp))
    simp only [List.map_cons, flatCat_cons, List.length_cons, List.append_assoc]
    rw [deList, h1]
    simp [ih rest (fun y hy => h y (by simp [hy]))]

theorem deObj_ser (f : Nat)
    (hf : ∀ j rest, depthJ j ≤ f → deJson f (serJson j ++ rest) = some (j, rest)) :
    ∀ (kvs : List (List Char × Json)) (rest : List Nat),
      (∀ kv ∈ kvs, depthJ kv.2 ≤ f) →
      deObj f kvs.length
        (flatCat (kvs.map
          (fun kv => kv.1.length :: (kv.1.map Char.toNat ++ serJson kv.2))) ++ rest) =
        some (kvs, rest) := by
  intro kvs
  induction kvs with
  | nil => intro rest _; simp [flatCat, deObj]
  | cons kv kvs ih =>
    intro rest h
    have hk : takeExact kv.1.length
        (kv.1.map Char.toNat ++
          (serJson kv.2 ++
            (flatCat (kvs.map
              (fun kv => kv.1.length :: (kv.1.map Char.toNat ++ serJson kv.2))) ++ rest))) =
        some (kv.1.map Char.toNat,
          serJson kv.2 ++
            (flatCat (kvs.map
              (fun kv => kv.1.length :: (kv.1.map Char.toNat ++ serJson kv.2))) ++ rest)) := by
      rw [show kv.1.length = (kv.1.map Char.toNat).length by simp]
      exact takeExact_append _ _
    have h1 : deJson f
        (serJson kv.2 ++
          (flatCat (kvs.map
            (fun kv => kv.1.length :: (kv.1.map Char.toNat ++ serJson kv.2))) ++ rest)) =
        some (kv.2,
          flatCat (kvs.map
            (fun kv => kv.1.length :: (kv.1.map Char.toNat ++ serJson kv.2))) ++ rest) :=
      hf kv.2 _ (h kv (by simp))
    simp only [List.map_cons, flatCat_cons, List.length_cons, List.cons_append,
      List.append_assoc]
    rw [deObj, hk]
    simp only [Option.bind]
    rw [h1]
    simp only [Option.bind]
    rw [ih rest (fun y hy => h y (by simp [hy]))]
    simp only [Option.map]
    rw [List.map_map]
    have : (Char.ofNat ∘ Char.toNat) = id := by
      funext c
      simp [Char.ofNat_toNat]
    rw [this, List.map_id]

theorem deJson_ser : ∀ (f : Nat) (j : Json) (rest : List Nat), depthJ j ≤ f →
    deJson f (serJson j ++ rest) = some (j, rest) := by
  intro f
  induction f with
  | zero =>
    intro j rest h
    have := depthJ_pos j
    omega
  | succ f ih =>
    intro j rest h
    cases j with
    | null => simp [serJson, deJson]
    | bool b => cases b <;> simp [serJson, deJson]
    | num n =>
      by_cases hn : n < 0
      · simp only [serJson, if_pos hn, List.cons_append, deJson]
        simp only [beq_self_eq_true, if_pos]
        have : -(↑n.natAbs : Int) = n := by omega
        rw [this]
        simp
      · simp only [serJson, if_neg hn, List.cons_append, deJson]
        have hb : ((0 : Nat) == 1) = false := by decide
        simp only [hb, Bool.false_eq_true, if_neg, ite_false]
        have : ((n.natAbs : Int)) = n := by omega
        rw [this]
        simp
    | str s =>
      simp only [serJson, List.cons_append, deJson]
      have h1 : takeExact s.length (s.map Char.toNat ++ rest) =
          some (s.map Char.toNat, rest) := by
        rw [show s.length = (s.map Char.toNat).length by simp]
        exact takeExact_append _ _
      rw [h1]
      simp only [Option.map]
      rw [List.map_map]
      have : (Char.ofNat ∘ Char.toNat) = id := by
        funext c
        simp [Char.ofNat_toNat]
      rw [this, List.map_id]
    | arr xs =>
      have e1 : (xs.attach.map (fun x => depthJ x.1)) = xs.map depthJ :=
        List.attach_map_val xs depthJ
      have e2 : (xs.attach.map (fun x => serJson x.1)) = xs.map serJson :=
        List.attach_map_val xs serJson
      have hd : depthJ (Json.arr xs) = (xs.map depthJ).foldl max 0 + 1 := by
        simp [depthJ, e1]
      have hx : ∀ x ∈ xs, depthJ x ≤ f := by
        intro x hm
        have h2 := mem_le_foldl_max (xs.map depthJ) (depthJ x)
          (List.mem_map_of_mem depthJ hm) 0
        rw [hd] at h
        omega
      have hser : serJson (Json.arr xs) =
          4 :: xs.length :: flatCat (xs.map serJson) := by
        simp [serJson, e2]
      rw [hser]
      simp only [List.cons_append, deJson]
      rw [deList_ser f ih xs rest hx]
      rfl
    | obj kvs =>
      have e1 : (kvs.attach.map (fun kv => depthJ kv.1.2)) =
          kvs.map (fun kv => depthJ kv.2) :=
        List.attach_map_val kvs (fun kv => depthJ kv.2)
      have e2 : (kvs.attach.map
            (fun kv => kv.1.1.length :: (kv.1.1.map Char.toNat ++ serJson kv.1.2))) =
          kvs.map (fun kv => kv.1.length :: (kv.1.map Char.toNat ++ serJson kv.2)) :=
        List.attach_map_val kvs
          (fun kv => kv.1.length :: (kv.1.map Char.toNat ++ serJson kv.2))
      have hd : depthJ (Json.obj kvs) =
          (kvs.map (fun kv => depthJ kv.2)).foldl max 0 + 1 := by
        simp [depthJ, e1]
      have hx : ∀ kv ∈ kvs, depthJ kv.2 ≤ f := by
        intro kv hm
        have h2 := mem_le_foldl_max (kvs.map (fun kv => depthJ kv.2)) (depthJ kv.2)
          (List.mem_map_of_mem (fun kv => depthJ kv.2) hm) 0
        rw [hd] at h
        omega
      have hser : serJson (Json.obj kvs) = 5 :: kvs.length ::
          flatCat (kvs.map
            (fun kv => kv.1.length :: (kv.1.map Char.toNat ++ serJson kv.2))) := by
        simp [serJson, e2]
      rw [hser]
      simp only [List.cons_append, deJson]
      rw [deObj_ser f ih kvs rest hx]
      rfl

theorem jsonParse_ser (j : Json) : jsonParse (serJson j) = some j := by
  unfold jsonParse
  have h := deJson_ser ((serJson j).length + 1) j []
    (by have := depthJ_le j; omega)
  rw [List.append_nil] at h
  rw [h]
  rfl

/-- One symbol of the modelled transport text encoding: a prefix-free
unary code for a single byte symbol. -/
def natUn (n : Nat) : List Char := List.replicate n 'a' ++ ['b']

/-- Modelled platform primitive `String.fromCharCode` composed with
`btoa`: a transport-safe text encoding of a byte list.  The repository
only relies on `atob` inverting it; the concrete alphabet is irrelevant. -/
def btoaModel (bs : List Nat) : List Char := (bs.map natUn).flatten

/-- Decoder loop for `atobModel`, accumulating the current symbol. -/
def atobGo (k : Nat) : List Char → Option (List Nat)
  | [] => none
  | c :: rest =>
    if c = 'a' then atobGo (k + 1) rest
    else if c = 'b' then
      match rest with
      | [] => some [k]
      | _ :: _ => (atobGo 0 rest).map (fun l => k :: l)
    else none

/-- Modelled platform primitive `atob` composed with per-character
`charCodeAt`: decodes the transport text encoding, failing on malformed
input. -/
def atobModel (s : List Char) : Option (List Nat) :=
  match s with
  | [] => some []
  | c :: rest => atobGo 0 (c :: rest)

theorem atobGo_replicate (m : Nat) (k : Nat) (rest : List Char) :
    atobGo k (List.replicate m 'a' ++ rest) = atobGo (k + m) rest := by
  induction m generalizing k with
  | zero => simp
  | succ m ih =>
    have step : atobGo k ('a' :: (List.replicate m 'a' ++ rest)) =
        atobGo (k + 1) (List.replicate m 'a' ++ rest) := by
      simp [atobGo]
    rw [List.replicate_succ, List.cons_append, step, ih (k + 1)]
    congr 1
    omega

theorem atobGo_bsym (k : Nat) (c : Char) (t : List Char) :
    atobGo k ('b' :: c :: t) = (atobGo 0 (c :: t)).map (fun l => k :: l) := by
  simp [atobGo]

theorem atobGo_btoa (b : Nat) (bs : List Nat) (k : Nat) :
    atobGo k (natUn b ++ (bs.map natUn).flatten) = some ((k + b) :: bs) := by
  induction bs generalizing b k with
  | nil =>
    simp only [List.map_nil, List.flatten_nil, List.append_nil, natUn]
    rw [atobGo_replicate]
    rfl
  | cons b2 bs ih =>
    have hsh : natUn b ++ (((b2 :: bs).map natUn).flatten) =
        List.replicate b 'a' ++
          ('b' :: (natUn b2 ++ (bs.map natUn).flatten)) := by
      simp [natUn]
    rw [hsh, atobGo_replicate]
    have hne : natUn b2 ++ (bs.map natUn).flatten ≠ [] := by simp [natUn]
    cases hh : natUn b2 ++ (bs.map natUn).flatten with
    | nil => exact absurd hh hne
    | cons c t =>
      rw [atobGo_bsym]
      have h2 := ih b2 0
      rw [hh] at h2
      rw [h2]
      simp

theorem atob_btoa (bs : List Nat) : atobModel (btoaModel bs) = some bs := by
  cases bs with
  | nil => rfl
  | cons b bs =>
    have h := atobGo_btoa b bs 0
    have hne : natUn b ++ (bs.map natUn).flatten ≠ [] := by simp [natUn]
    simp only [btoaModel, List.map_cons, List.flatten_cons]
    cases hh : natUn b ++ (bs.map natUn).flatten with
    | nil => exact absurd hh hne
    | cons c t =>
      rw [hh] at h
      simpa [atobModel] using h

/-- Modelled platform primitive SHA-256: a deterministic digest of a byte
list, truncated to the 256-bit output range.  Only determinism and
equality comparison of digests are relied on by the repository code. -/
def hashBytesModel (bs : List Nat) : Nat :=
  bs.foldl (fun a b => (a * 131 + b + 1) % (2 ^ 256)) 7

/-- `WaxEncountersSecurity.hashPassword`: SHA-256 digest of the UTF-8
password bytes (the hex rendering is modelled by the digest value). -/
def hashPassword (password : List Char) : Nat :=
  hashBytesModel (password.map Char.toNat)

/-- Modelled platform primitive PBKDF2-SHA256 (100000 iterations):
`WaxEncountersSecurity.deriveKeyFromPassword`.  Deterministic in
(password, salt), which is the only property the code relies on. -/
def deriveKeyFromPassword (password : List Char) (salt : List Nat) : Nat :=
  hashBytesModel (password.map Char.toNat ++ salt)

/-- Indexed map, used to apply the modelled keystream position-wise. -/
def mapIdxN (f : Nat → Nat → Nat) : Nat → List Nat → List Nat
  | _, [] => []
  | i, b :: bs => f i b :: mapIdxN f (i + 1) bs

/-- Modelled AES-GCM keystream byte for a given key, IV and position. -/
def keystream (key : Nat) (iv : List Nat) (i : Nat) : Nat :=
  (key + iv.foldl (· + ·) 0 + i * 131 + 17) % 256

/-- Modelled 128-bit (16-byte) GCM authentication tag. -/
def gcmTag (key : Nat) (iv ct : List Nat) : List Nat :=
  List.replicate 16 ((key + iv.foldl (· + ·) 0 + ct.foldl (· + ·) 0 + 3) % 256)

/-- Modelled `crypto.subtle.encrypt` with AES-GCM: keystream cipher plus
appended authentication tag. -/
def gcmEncrypt (key : Nat) (iv pt : List Nat) : List Nat :=
  let ct := mapIdxN (fun i b => b ^^^ keystream key iv i) 0 pt
  ct ++ gcmTag key iv ct

/-- Modelled `crypto.subtle.decrypt` with AES-GCM: fails unless the
authentication tag verifies, then inverts the keystream cipher. -/
def gcmDecrypt (key : Nat) (iv data : List Nat) : Option (List Nat) :=
  if data.length < 16 then none
  else
    let ct := data.take (data.length - 16)
    let tag := data.drop (data.length - 16)
    if tag = gcmTag key iv ct then
      some (mapIdxN (fun i b => b ^^^ keystream key iv i) 0 ct)
    else none

/-- `WaxEncountersSecurity.encryptUserData`: serialize the payload,
derive a key from the password and the salt, encrypt with the IV,
concatenate salt, IV and ciphertext(+tag) and transport-encode.  The
fresh random salt and IV produced by `generateSalt` / `generateIV` are
passed in explicitly. -/
def encryptUserData (data : Json) (password : List Char)
    (salt iv : List Nat) : List Char :=
  let key := deriveKeyFromPassword password salt
  btoaModel (salt ++ iv ++ gcmEncrypt key iv (serJson data))

/-- `WaxEncountersSecurity.decryptUserData`: transport-decode, slice out
salt (32 bytes), IV (12 bytes) and ciphertext, re-derive the key and
authenticated-decrypt; any failure (decoding, tag, parse) yields `none`,
modelling the generic thrown decryption error. -/
def decryptUserData (blob : List Char) (password : List Char) : Option Json :=
  match atobModel blob with
  | none => none
  | some combined =>
    let salt := combined.take 32
    let iv := (combined.drop 32).take 12
    let encrypted := combined.drop 44
    let key := deriveKeyFromPassword password salt
    match gcmDecrypt key iv encrypted with
    | none => none
    | some pt => jsonParse pt

theorem mapIdxN_mapIdxN (f g : Nat → Nat → Nat) :
    ∀ (i : Nat) (l : List Nat),
      mapIdxN g i (mapIdxN f i l) = mapIdxN (fun j b => g j (f j b)) i l := by
  intro i l
  induction l generalizing i with
  | nil => rfl
  | cons b bs ih => simp [mapIdxN, ih]

theorem mapIdxN_id (f : Nat → Nat → Nat) (hf : ∀ i b, f i b = b) :
    ∀ (i : Nat) (l : List Nat), mapIdxN f i l = l := by
  intro i l
  induction l generalizing i with
  | nil => rfl
  | cons b bs ih => simp [mapIdxN, hf, ih]

theorem gcm_decrypt_encrypt (key : Nat) (iv pt : List Nat) :
    gcmDecrypt key iv (gcmEncrypt key iv pt) = some pt := by
  unfold gcmEncrypt gcmDecrypt
  have hlen : (mapIdxN (fun i b => b ^^^ keystream key iv i) 0 pt ++
      gcmTag key iv (mapIdxN (fun i b => b ^^^ keystream key iv i) 0 pt)).length =
      (mapIdxN (fun i b => b ^^^ keystream key iv i) 0 pt).length + 16 := by
    simp [gcmTag]
  rw [hlen]
  rw [if_neg (by omega)]
  have hsub : (mapIdxN (fun i b => b ^^^ keystream key iv i) 0 pt).length + 16 - 16 =
      (mapIdxN (fun i b => b ^^^ keystream key iv i) 0 pt).length := by omega
  rw [hsub, List.take_left, List.drop_left, if_pos rfl]
  rw [mapIdxN_mapIdxN]
  rw [mapIdxN_id]
  intro i b
  rw [Nat.xor_assoc, Nat.xor_self, Nat.xor_zero]

theorem decrypt_encrypt (d : Json) (p : List Char) (salt iv : List Nat)
    (hs : salt.length = 32) (hi : iv.length = 12) :
    decryptUserData (encryptUserData d p salt iv) p = some d := by
  unfold encryptUserData decryptUserData
  rw [atob_btoa]
  have h1 : (salt ++ (iv ++ gcmEncrypt (deriveKeyFromPassword p salt) iv
      (serJson d))).take 32 = salt := by
    rw [← hs]
    exact List.take_left salt _
  have h2 : (salt ++ (iv ++ gcmEncrypt (deriveKeyFromPassword p salt) iv
      (serJson d))).drop 32 = iv ++ gcmEncrypt (deriveKeyFromPassword p salt) iv
      (serJson d) := by
    rw [← hs]
    exact List.drop_left salt _
  have h3 : (iv ++ gcmEncrypt (deriveKeyFromPassword p salt) iv
      (serJson d)).take 12 = iv := by
    rw [← hi]
    exact List.take_left iv _
  have h4 : (salt ++ (iv ++ gcmEncrypt (deriveKeyFromPassword p salt) iv
      (serJson d))).drop 44 = gcmEncrypt (deriveKeyFromPassword p salt) iv
      (serJson d) := by
    rw [show (44 : Nat) = 32 + 12 from rfl, ← List.drop_drop, h2, ← hi]
    exact List.drop_left iv _
  simp only [List.append_assoc] at h1 h2 h3 h4 ⊢
  rw [h1, h2, h3, h4]
  rw [gcm_decrypt_encrypt]
  exact jsonParse_ser d

/-- ASCII uppercase letter, the regex class `[A-Z]`. -/
def isUpperAZ (c : Char) : Bool := 65 ≤ c.toNat && c.toNat ≤ 90

/-- ASCII lowercase letter, the regex class `[a-z]`. -/
def isLowerAZ (c : Char) : Bool := 97 ≤ c.toNat && c.toNat ≤ 122

/-- ASCII digit, the regex class `[0-9]`. -/
def isDigitCh (c : Char) : Bool := 48 ≤ c.toNat && c.toNat ≤ 57

/-- The regex class `[a-zA-Z]`. -/
def isAlphaCh (c : Char) : Bool := isUpperAZ c || isLowerAZ c

/-- The regex class `[A-Z0-9]`. -/
def isAlnumUpper (c : Char) : Bool := isUpperAZ c || isDigitCh c

/-- The regex class `\s` (common whitespace). -/
def jsSpace (c : Char) : Bool := c = ' ' || c = '\t' || c = '\n' || c = '\r'

/-- Split a list at the first occurrence of `t`; the first component has
no occurrence of `t`. -/
def splitFirst (t : Char) : List Char → Option (List Char × List Char)
  | [] => none
  | c :: rest =>
    if c = t then some ([], rest)
    else (splitFirst t rest).map (fun r => (c :: r.1, r.2))

/-- Split a list at the last occurrence of `t`; the second component has
no occurrence of `t`. -/
def splitLast (t : Char) (l : List Char) : Option (List Char × List Char) :=
  (splitFirst t l.reverse).map (fun r => (r.2.reverse, r.1.reverse))

/-- The regex class `[a-zA-Z0-9._%+-]` (email local part). -/
def emailLocalChar (c : Char) : Bool :=
  isAlphaCh c || isDigitCh c || c = '.' || c = '_' || c = '%' || c = '+' || c = '-'

/-- The regex class `[a-zA-Z0-9.-]` (email domain part). -/
def emailDomainChar (c : Char) : Bool :=
  isAlphaCh c || isDigitCh c || c = '.' || c = '-'

/-- `WaxEncountersSecurity.validateEmail`: the anchored regex
`[a-zA-Z0-9._%+-]+ @ [a-zA-Z0-9.-]+ \. [a-zA-Z]{2,}`.  Because the local
class excludes `@` the match splits at the first `@`, and because the
top-level-domain class excludes `.` the final dot is the last `.` of the
domain part; the checker implements exactly this forced decomposition. -/
def validateEmail (email : List Char) : Bool :=
  match splitFirst '@' email with
  | none => false
  | some r =>
    !r.1.isEmpty && r.1.all emailLocalChar &&
      (match splitLast '.' r.2 with
       | none => false
       | some d =>
         !d.1.isEmpty && d.1.all emailDomainChar &&
           decide (2 ≤ d.2.length) && d.2.all isAlphaCh)

/-- `WaxEncountersSecurity.validateIBAN`: the anchored regex
`[A-Z]{2} [0-9]{2} [A-Z0-9]{4} [0-9]{7} ([A-Z0-9]?){0,16}` applied to
the input with whitespace removed; the trailing group matches between 0
and 16 further alphanumeric characters, so the length lies in 15..31
with positional character classes. -/
def validateIBAN (iban : List Char) : Bool :=
  let t := iban.filter (fun c => !jsSpace c)
  decide (15 ≤ t.length) && decide (t.length ≤ 31) &&
    (t.take 2).all isUpperAZ && ((t.drop 2).take 2).all isDigitCh &&
    ((t.drop 4).take 4).all isAlnumUpper && ((t.drop 8).take 7).all isDigitCh &&
    (t.drop 15).all isAlnumUpper

/-- `WaxEncountersSecurity.validateBIC`: the anchored regex
`[A-Z]{6} [A-Z0-9]{2} ([A-Z0-9]{3})?`. -/
def validateBIC (bic : List Char) : Bool :=
  (decide (bic.length = 8) || decide (bic.length = 11)) &&
    (bic.take 6).all isUpperAZ && (bic.drop 6).all isAlnumUpper

/-- The decimal digit character for `n < 10`. -/
def digitChar (n : Nat) : Char := Char.ofNat (48 + n)

/-- Fuelled decimal printer (structurally recursive so that concrete
instances reduce). -/
def natDigitsGo : Nat → Nat → List Char
  | 0, _ => []
  | f + 1, n =>
    if n < 10 then [digitChar n]
    else natDigitsGo f (n / 10) ++ [digitChar (n % 10)]

/-- `Number.prototype.toString` in base 10 for a natural number. -/
def natDecChars (n : Nat) : List Char := natDigitsGo (n + 1) n

/-- `parseInt` on a single character: a digit value or `none` (NaN). -/
def digitVal (c : Char) : Option Nat :=
  if isDigitCh c then some (c.toNat - 48) else none

/-- `ServerValidation.validateIBANChecksum`, step 1: remove whitespace
and convert to uppercase. -/
def cleanIBAN (iban : List Char) : List Char :=
  (iban.filter (fun c => !jsSpace c)).map Char.toUpper

/-- `ServerValidation.validateIBANChecksum`, steps 2 and 3: move the
first 4 characters to the end and replace each letter `[A-Z]` by the
decimal rendering of `charCodeAt(0) - 55`. -/
def ibanNumericChars (iban : List Char) : List Char :=
  let clean := cleanIBAN iban
  let rearranged := clean.drop 4 ++ clean.take 4
  (rearranged.map
    (fun c => if isUpperAZ c then natDecChars (c.toNat - 55) else [c])).flatten

/-- `ServerValidation.validateIBANChecksum`: Horner-style `mod 97` loop
over the numeric string; a non-digit character makes `parseInt` return
NaN, which poisons the remainder (modelled by `Option`), and the final
comparison with 1 is then false. -/
def validateIBANChecksum (iban : List Char) : Bool :=
  match (ibanNumericChars iban).foldl
      (fun acc c => acc.bind (fun r => (digitVal c).map (fun d => (r * 10 + d) % 97)))
      (some 0) with
  | some r => r == 1
  | none => false

/-- The decimal number the claim reads off the numeric string (the
ISO 7064 MOD-97-10 rearranged value); meaningful when every character is
a digit. -/
def ibanClaimNumber (iban : List Char) : Nat :=
  (ibanNumericChars iban).foldl (fun r c => r * 10 + (c.toNat - 48)) 0

/-- `String.prototype.trim`. -/
def jsTrim (s : List Char) : List Char :=
  ((s.dropWhile jsSpace).reverse.dropWhile jsSpace).reverse

/-- Case-insensitive prefix match of the pattern `p :: ps` against a
string, modelling the `i` regex flag. -/
def matchCI : List Char → List Char → Bool
  | [], _ => true
  | _ :: _, [] => false
  | p :: ps, c :: cs => (c.toLower == p.toLower) && matchCI ps cs

/-- One global-replace-with-empty pass: scan left to right, removing
non-overlapping case-insensitive occurrences of the pattern `p :: ps`
found in the input and continuing after each removed occurrence, exactly
like `String.prototype.replace` with a `gi` regex and an empty
replacement.  Structurally recursive on fuel so concrete instances
reduce; fuel `s.length` suffices since every step consumes a character. -/
def removeSubGo (p : Char) (ps : List Char) : Nat → List Char → List Char
  | 0, s => s
  | _ + 1, [] => []
  | f + 1, c :: rest =>
    if matchCI (p :: ps) (c :: rest) then
      removeSubGo p ps f ((c :: rest).drop (ps.length + 1))
    else c :: removeSubGo p ps f rest

/-- `s.replace(/pattern/gi, '')` for a plain-text pattern `p :: ps`. -/
def removeSubCI (p : Char) (ps : List Char) (s : List Char) : List Char :=
  removeSubGo p ps s.length s

/-- Case-insensitive substring occurrence test (used to state what the
sanitizer output still contains). -/
def hasSubCI (p : Char) (ps : List Char) : List Char → Bool
  | [] => false
  | c :: rest => matchCI (p :: ps) (c :: rest) || hasSubCI p ps rest

/-- The character-removal passes of `ServerValidation.sanitizeInput`,
in source order: angle brackets, quotes, semicolons, parentheses,
braces, square brackets. -/
def stripChars (s : List Char) : List Char :=
  ((((((s.filter (fun c => !(c == Char.ofNat 60 || c == Char.ofNat 62))).filter
    (fun c => !(c == Char.ofNat 39 || c == Char.ofNat 34))).filter
    (fun c => !(c == Char.ofNat 59))).filter
    (fun c => !(c == Char.ofNat 40 || c == Char.ofNat 41))).filter
    (fun c => !(c == Char.ofNat 123 || c == Char.ofNat 125))).filter
    (fun c => !(c == Char.ofNat 91 || c == Char.ofNat 93)))

/-- The substring-removal patterns of `ServerValidation.sanitizeInput`,
in source order (head character split off so each pattern is manifestly
non-empty). -/
def denyPatterns : List (Char × List Char) :=
  [('s', "cript".data), ('j', "avascript".data), ('o', "nload".data),
   ('o', "nerror".data), ('o', "nclick".data), ('o', "nmouseover".data),
   ('o', "nfocus".data), ('o', "nblur".data), ('o', "nchange".data),
   ('o', "nsubmit".data), ('o', "nreset".data), ('o', "nselect".data),
   ('o', "nkeydown".data), ('o', "nkeyup".data), ('o', "nkeypress".data)]

/-- `ServerValidation.sanitizeInput`: trim, then remove the denylisted
characters, then apply the substring-removal passes case-insensitively
in source order. -/
def sanitizeInput (input : List Char) : List Char :=
  denyPatterns.foldl (fun s pp => removeSubCI pp.1 pp.2 s) (stripChars (jsTrim input))

/-- The denylisted characters of the sanitizer: angle brackets, quotes,
semicolon, parentheses, braces, square brackets. -/
def bannedChars : List Char :=
  [60, 62, 39, 34, 59, 40, 41, 123, 125, 91, 93].map Char.ofNat

/-- Result of `ServerValidation.checkRateLimit`. -/
structure RateResult where
  allowed : Bool
  remaining : Int
  resetTime : Int

/-- `ServerValidation.checkRateLimit` for one `action:identifier` key:
`attempts` is the stored timestamp list for that key, and the second
component of the result is the list persisted back (a denied call stores
nothing, so the stored list is unchanged). -/
def checkRateLimit (attempts : List Int) (now : Int) (limit : Nat)
    (windowMs : Int) : RateResult × List Int :=
  let windowStart := now - windowMs
  let recent := attempts.filter (fun t => windowStart < t)
  if limit ≤ recent.length then
    ({ allowed := false, remaining := 0,
       resetTime := recent.headD 0 + windowMs }, attempts)
  else
    let updated := recent ++ [now]
    ({ allowed := true, remaining := (limit : Int) - updated.length,
       resetTime := now + windowMs }, updated)

/-- Lowercase hexadecimal digit for `n < 16` (`toString(16)`). -/
def hexDigitChar (n : Nat) : Char :=
  if n < 10 then Char.ofNat (48 + n) else Char.ofNat (87 + n)

/-- `byte.toString(16).padStart(2, '0')` for a byte value. -/
def byteToHex (b : Nat) : List Char := [hexDigitChar (b / 16), hexDigitChar (b % 16)]

/-- `WaxEncountersSecurity.generateSessionToken`: hex-encode 32
cryptographically random bytes (passed in explicitly). -/
def generateSessionToken (bytes : List Nat) : List Char :=
  (bytes.map byteToHex).flatten

/-- The regex class `[a-f0-9]`. -/
def isHexLower (c : Char) : Bool :=
  isDigitCh c || (97 ≤ c.toNat && c.toNat ≤ 102)

/-- `ServerValidation.validateSessionToken`: a string matching
`^[a-f0-9]{64}$`. -/
def validateSessionToken (token : List Char) : Bool :=
  decide (token.length = 64) && token.all isHexLower

/-- The session object of `SecureStorageManager`. -/
structure Session where
  sessionId : List Char
  createdAt : Int
  lastActivity : Int
  isActive : Bool

/-- `securityMetadata` attached by `prepareSecureData` (ISO timestamps
are modelled by the numeric clock value). -/
structure SecurityMetadata where
  encryptionAlgorithm : List Char
  keyDerivation : List Char
  iterations : Nat
  saltLength : Nat
  ivLength : Nat
  tagLength : Nat
  encryptedAt : Int

/-- The storage object assembled by `storeUserData` before the integrity
hash is attached: everything the envelope holds except `dataHash`. -/
structure EnvelopeCore where
  encryptedData : List Char
  nonSensitiveData : JMap
  hashedPassword : Nat
  securityMetadata : SecurityMetadata
  storedAt : Int
  version : List Char

/-- The persisted envelope: the core plus its integrity hash. -/
structure Envelope where
  core : EnvelopeCore
  dataHash : Nat

/-- The persistent browser storage visible to the claims: the envelope
under the user-data key and the session under the session key. -/
structure Store where
  userData : Option Envelope
  session : Option Session

/-- The eight sensitive field names `prepareSecureData` extracts, in
object-literal order. -/
def sensitiveFields : List (List Char) :=
  ["firstName", "lastName", "email", "phone", "shippingAddress",
    "iban", "bic", "bankAccountOwner"].map String.data

/-- The sensitive-data object built by `prepareSecureData`: the eight
named fields copied from the record.  A field absent from the record is
`undefined` in the object literal and dropped by the `JSON.stringify`
that immediately serializes it for encryption, so absent fields are
omitted here. -/
def sensitiveOf (u : JMap) : JMap :=
  sensitiveFields.filterMap (fun f => (lookupJ u f).map (fun v => (f, v)))

/-- An optional object entry (present JSON value, or dropped
`undefined`). -/
def optEntry (k : List Char) : Option Json → JMap
  | some v => [(k, v)]
  | none => []

/-- The non-sensitive data object built by `prepareSecureData`:
`registrationDate` is the current time (`toISOString` modelled by the
numeric clock), the two consent flags are copied verbatim from the
record (dropped when `undefined`, as the storage `JSON.stringify`
round-trip does), `emailVerified` is false and `accountStatus` is
`pending_verification`. -/
def nonSensitiveOf (u : JMap) (now : Int) : JMap :=
  [("registrationDate".data, Json.num now)] ++
    optEntry "termsAccepted".data (lookupJ u "termsAccepted".data) ++
    optEntry "privacyAccepted".data (lookupJ u "privacyAccepted".data) ++
    [("emailVerified".data, Json.bool false),
     ("accountStatus".data, Json.str "pending_verification".data)]

/-- Result of `WaxEncountersSecurity.prepareSecureData`. -/
structure PreparedData where
  encryptedData : List Char
  nonSensitiveData : JMap
  hashedPassword : Nat
  securityMetadata : SecurityMetadata

/-- The constant part of the security metadata, stamped with the
encryption time. -/
def securityMetadataOf (now : Int) : SecurityMetadata :=
  { encryptionAlgorithm := "AES-GCM".data
  , keyDerivation := "PBKDF2".data
  , iterations := 100000
  , saltLength := 32
  , ivLength := 12
  , tagLength := 128
  , encryptedAt := now }

/-- `WaxEncountersSecurity.prepareSecureData`: split the record into the
encrypted sensitive unit and the plaintext non-sensitive fields, hash
the password, attach metadata. -/
def prepareSecureData (userData : JMap) (password : List Char) (now : Int)
    (salt iv : List Nat) : PreparedData :=
  { encryptedData := encryptUserData (Json.obj (sensitiveOf userData)) password salt iv
  , nonSensitiveData := nonSensitiveOf userData now
  , hashedPassword := hashPassword password
  , securityMetadata := securityMetadataOf now }

/-- Byte encoding of an integer (sign byte plus magnitude). -/
def intEnc (i : Int) : List Nat := [if i < 0 then 1 else 0, i.natAbs]

/-- Byte encoding of the storage object without its `dataHash` field,
modelling the `JSON.stringify` the integrity digest is computed over. -/
def encodeCore (c : EnvelopeCore) : List Nat :=
  c.encryptedData.map Char.toNat ++
    serJson (Json.obj c.nonSensitiveData) ++
    [c.hashedPassword] ++
    c.securityMetadata.encryptionAlgorithm.map Char.toNat ++
    c.securityMetadata.keyDerivation.map Char.toNat ++
    [c.securityMetadata.iterations, c.securityMetadata.saltLength,
     c.securityMetadata.ivLength, c.securityMetadata.tagLength] ++
    intEnc c.securityMetadata.encryptedAt ++
    intEnc c.storedAt ++
    c.version.map Char.toNat

/-- `WaxEncountersSecurity.generateDataHash` applied to the envelope
minus its `dataHash` field: serialize and digest. -/
def generateDataHash (c : EnvelopeCore) : Nat := hashBytesModel (encodeCore c)

/-- `WaxEncountersSecurity.verifyDataIntegrity`: recompute the digest
and compare with the expected one. -/
def verifyDataIntegrity (c : EnvelopeCore) (expected : Nat) : Bool :=
  generateDataHash c == expected

/-- `SecureStorageManager.updateSession`: refresh `lastActivity` and set
`isActive` when a session exists; otherwise do nothing. -/
def updateSession (st : Store) (now : Int) (isActive : Bool) : Store :=
  match st.session with
  | some s =>
      { st with session := some { s with lastActivity := now, isActive := isActive } }
  | none => st

/-- `SecureStorageManager.isSessionValid`: a session exists, is active,
and its age is strictly below 24 hours. -/
def isSessionValid (st : Store) (now : Int) : Bool :=
  match st.session with
  | none => false
  | some s => s.isActive && decide (now - s.lastActivity < 24 * 60 * 60 * 1000)

/-- `SecureStorageManager.validateUserData`: the eight required fields
must be present as non-empty strings, and email, IBAN and BIC must pass
their format regexes. -/
def requiredFields : List (List Char) :=
  ["firstName", "lastName", "email", "shippingAddress",
    "iban", "bic", "bankAccountOwner", "password"].map String.data

/-- Truthy non-empty string check for `!userData[field] ||
typeof userData[field] !== 'string'`. -/
def isNonEmptyStringField (v : Option Json) : Bool :=
  match v with
  | some (Json.str s) => !s.isEmpty
  | _ => false

/-- The string value of a field (callers only use it when the field is
known to be a string). -/
def strFieldOf (u : JMap) (k : List Char) : List Char :=
  match lookupJ u k with
  | some (Json.str s) => s
  | _ => []

def validateUserData (u : JMap) : Bool :=
  requiredFields.all (fun f => isNonEmptyStringField (lookupJ u f)) &&
    validateEmail (strFieldOf u "email".data) &&
    validateIBAN (strFieldOf u "iban".data) &&
    validateBIC (strFieldOf u "bic".data)

def noDataMsg : List Char := "No user data found".data

def retrieveFailMsg : List Char := "Failed to retrieve user data".data

def invalidDataMsg : List Char := "Invalid user data provided".data

def nullSessionMsg : List Char := "Cannot read properties of null".data

def cannotRetrieveMsg : List Char := "Cannot retrieve existing data".data

/-- Result object of `storeUserData` / `updateUserData`. -/
structure StoreResult where
  success : Bool
  sessionId : Option (List Char)
  errMsg : Option (List Char)

/-- Result object of `retrieveUserData`. -/
structure RetrieveResult where
  success : Bool
  data : Option JMap
  errMsg : Option (List Char)

/-- `SecureStorageManager.storeUserData`: validate, build the envelope
(encrypt, hash password, attach metadata and `storedAt`/`version`),
compute the integrity hash over the assembled object, persist, refresh
the session, and report the session id.  When no session exists the
final `this.getSession().sessionId` throws a `TypeError` that the
`catch` converts to a failure result - after the envelope was already
written. -/
def storeUserData (st : Store) (now : Int) (userData : JMap)
    (password : List Char) (salt iv : List Nat) : Store × StoreResult :=
  if validateUserData userData then
    let prepared := prepareSecureData userData password now salt iv
    let core : EnvelopeCore :=
      { encryptedData := prepared.encryptedData
      , nonSensitiveData := prepared.nonSensitiveData
      , hashedPassword := prepared.hashedPassword
      , securityMetadata := prepared.securityMetadata
      , storedAt := now
      , version := "1.0".data }
    let env : Envelope := { core := core, dataHash := generateDataHash core }
    let st2 : Store := updateSession { st with userData := some env } now true
    match st2.session with
    | some s => (st2, { success := true, sessionId := some s.sessionId, errMsg := none })
    | none => (st2, { success := false, sessionId := none, errMsg := some nullSessionMsg })
  else
    (st, { success := false, sessionId := none, errMsg := some invalidDataMsg })

/-- JS object spread of an arbitrary value (`{...decryptedData}`):
objects spread their properties, strings and arrays spread index-keyed
entries, primitives spread nothing. -/
def spreadOf : Json → JMap
  | .obj m => m
  | .str s => (List.range s.length).map
      (fun i => (natDecChars i, Json.str [s.getD i (Char.ofNat 32)]))
  | .arr xs => (List.range xs.length).map
      (fun i => (natDecChars i, xs.getD i Json.null))
  | _ => []

/-- `SecureStorageManager.retrieveUserData`: a missing envelope is the
distinct no-data failure; otherwise the integrity hash is recomputed
over the envelope with `dataHash` destructured away and compared, a
mismatch failing before decryption; then the payload is decrypted and
merged with the non-sensitive fields, refreshing the session.  The last
component records whether `decryptUserData` was invoked. -/
def retrieveUserData (st : Store) (password : List Char) (now : Int) :
    Store × RetrieveResult × Bool :=
  match st.userData with
  | none => (st, { success := false, data := none, errMsg := some noDataMsg }, false)
  | some env =>
    if verifyDataIntegrity env.core env.dataHash then
      match decryptUserData env.core.encryptedData password with
      | some dec =>
        (updateSession st now true,
          { success := true
          , data := some (mergeJs (spreadOf dec) env.core.nonSensitiveData)
          , errMsg := none }, true)
      | none => (st, { success := false, data := none, errMsg := some retrieveFailMsg }, true)
    else
      (st, { success := false, data := none, errMsg := some retrieveFailMsg }, false)

/-- `SecureStorageManager.updateUserData`: retrieve with the supplied
password, merge the update over the retrieved record (update fields
override), and store the merged record again. -/
def updateUserData (st : Store) (now : Int) (upd : JMap)
    (password : List Char) (salt iv : List Nat) : Store × StoreResult :=
  let r := retrieveUserData st password now
  if r.2.1.success then
    storeUserData r.1 now (mergeJs ((r.2.1.data).getD []) upd) password salt iv
  else
    (r.1, { success := false, sessionId := none, errMsg := some cannotRetrieveMsg })

/-- JS `||`-style choice on optional values (used to state overriding). -/
def orO (x y : Option Json) : Option Json :=
  match x with
  | some v => some v
  | none => y

/-- C1: for every JSON-serializable value `d` and every password `p`,
`decryptUserData (encryptUserData d p) p` succeeds and returns a value
equal to `d`, for any fresh 32-byte salt and 12-byte IV drawn by
`encryptUserData`. -/
theorem C1_encrypt_decrypt_roundtrip (d : Json) (p : List Char)
    (salt iv : List Nat) (hs : salt.length = 32) (hi : iv.length = 12) :
    decryptUserData (encryptUserData d p salt iv) p = some d :=
  decrypt_encrypt d p salt iv hs hi

theorem C1_encrypt_decrypt_roundtrip_witness :
    decryptUserData
      (encryptUserData (Json.obj [("firstName".data, Json.str "Ann".data)])
        "pw".data (List.replicate 32 0) (List.replicate 12 0)) "pw".data =
      some (Json.obj [("firstName".data, Json.str "Ann".data)]) :=
  C1_encrypt_decrypt_roundtrip _ _ _ _ (by simp) (by simp)

/-- C2: with no envelope stored, `retrieveUserData` returns the distinct
no-data failure (whose message differs from the generic retrieval
failure); with an envelope stored whose `dataHash` differs from the hash
recomputed over the envelope with `dataHash` removed, it returns a
failure and the decryption routine is never invoked (final component
`false`). -/
theorem C2_retrieve_integrity_gate (st : Store) (p : List Char) (now : Int) :
    (st.userData = none →
      retrieveUserData st p now =
        (st, { success := false, data := none, errMsg := some noDataMsg }, false) ∧
        noDataMsg ≠ retrieveFailMsg) ∧
    (∀ env : Envelope, st.userData = some env →
      env.dataHash ≠ generateDataHash env.core →
      retrieveUserData st p now =
        (st, { success := false, data := none, errMsg := some retrieveFailMsg }, false)) := by
  constructor
  · intro h
    constructor
    · simp [retrieveUserData, h]
    · decide
  · intro env h hne
    have hv : verifyDataIntegrity env.core env.dataHash = false := by
      simp only [verifyDataIntegrity, beq_eq_false_iff_ne, ne_eq]
      exact fun hh => hne hh.symm
    simp [retrieveUserData, h, hv]

theorem C2_retrieve_integrity_gate_witness :
    (retrieveUserData ⟨none, none⟩ [] 0 =
      (⟨none, none⟩, { success := false, data := none, errMsg := some noDataMsg }, false) ∧
      noDataMsg ≠ retrieveFailMsg) ∧
    retrieveUserData
        ⟨some ⟨⟨[], [], 0, securityMetadataOf 0, 0, []⟩,
          generateDataHash ⟨[], [], 0, securityMetadataOf 0, 0, []⟩ + 1⟩, none⟩ [] 0 =
      (⟨some ⟨⟨[], [], 0, securityMetadataOf 0, 0, []⟩,
          generateDataHash ⟨[], [], 0, securityMetadataOf 0, 0, []⟩ + 1⟩, none⟩,
        { success := false, data := none, errMsg := some retrieveFailMsg }, false) :=
  ⟨(C2_retrieve_integrity_gate ⟨none, none⟩ [] 0).1 rfl,
    (C2_retrieve_integrity_gate _ [] 0).2 _ rfl (Nat.succ_ne_self _)⟩

/-- C9: `isSessionValid` is true exactly when a session is stored, its
`isActive` flag is set, and its age `now - lastActivity` is strictly
below 24 hours; in particular a 25-hour-old active session is invalid
and a 23-hour-old one is valid. -/
theorem C9_session_validity (st : Store) (now : Int) :
    (isSessionValid st now = true ↔
      ∃ s : Session, st.session = some s ∧ s.isActive = true ∧
        now - s.lastActivity < 24 * 60 * 60 * 1000) ∧
    (∀ sid cAt ud,
      isSessionValid ⟨ud, some ⟨sid, cAt, now - 25 * 60 * 60 * 1000, true⟩⟩ now = false) ∧
    (∀ sid cAt ud,
      isSessionValid ⟨ud, some ⟨sid, cAt, now - 23 * 60 * 60 * 1000, true⟩⟩ now = true) := by
  refine ⟨?_, ?_, ?_⟩
  · cases hs : st.session with
    | none => simp [isSessionValid, hs]
    | some s =>
      simp only [isSessionValid, hs, Bool.and_eq_true, decide_eq_true_eq]
      constructor
      · rintro ⟨h1, h2⟩
        exact ⟨s, rfl, h1, h2⟩
      · rintro ⟨s2, he, h1, h2⟩
        cases Option.some.inj he
        exact ⟨h1, h2⟩
  · intro sid cAt ud
    simp [isSessionValid]
  · intro sid cAt ud
    simp [isSessionValid]

theorem C9_session_validity_witness :
    isSessionValid ⟨none, some ⟨[], 0, 0, true⟩⟩ 1 = true :=
  (C9_session_validity ⟨none, some ⟨[], 0, 0, true⟩⟩ 1).1.mpr
    ⟨⟨[], 0, 0, true⟩, rfl, rfl, by decide⟩

theorem generateSessionToken_length (bs : List Nat) :
    (generateSessionToken bs).length = 2 * bs.length := by
  induction bs with
  | nil => rfl
  | cons b bs ih =>
    have hc : generateSessionToken (b :: bs) =
        byteToHex b ++ generateSessionToken bs := by
      simp [generateSessionToken]
    rw [hc, List.length_append, ih]
    simp [byteToHex]
    omega

theorem hexDigitChar_isHexLower (n : Nat) (h : n < 16) :
    isHexLower (hexDigitChar n) = true := by
  have hfin : ∀ m : Fin 16, isHexLower (hexDigitChar m.1) = true := by decide
  exact hfin ⟨n, h⟩

/-- C10: every token produced by `generateSessionToken` from 32 random
bytes is a string of exactly 64 lowercase hexadecimal characters, so
`validateSessionToken` accepts it. -/
theorem C10_generated_token_valid (bytes : List Nat)
    (hlen : bytes.length = 32) (hb : ∀ b ∈ bytes, b < 256) :
    (generateSessionToken bytes).length = 64 ∧
    (generateSessionToken bytes).all isHexLower = true ∧
    validateSessionToken (generateSessionToken bytes) = true := by
  have hl : (generateSessionToken bytes).length = 64 := by
    rw [generateSessionToken_length, hlen]
  have ha : (generateSessionToken bytes).all isHexLower = true := by
    rw [List.all_eq_true]
    intro c hc
    rcases List.mem_flatten.mp hc with ⟨l, hl2, hcl⟩
    rcases List.mem_map.mp hl2 with ⟨b, hbm, rfl⟩
    have hb2 := hb b hbm
    rcases List.mem_cons.mp hcl with h1 | h1
    · subst h1
      exact hexDigitChar_isHexLower _ (by omega)
    · rcases List.mem_cons.mp h1 with h2 | h2
      · subst h2
        exact hexDigitChar_isHexLower _ (by omega)
      · cases h2
  refine ⟨hl, ha, ?_⟩
  simp [validateSessionToken, hl, ha]

theorem C10_generated_token_valid_witness :
    (generateSessionToken (List.replicate 32 0)).length = 64 ∧
    (generateSessionToken (List.replicate 32 0)).all isHexLower = true ∧
    validateSessionToken (generateSessionToken (List.replicate 32 0)) = true :=
  C10_generated_token_valid (List.replicate 32 0) (by simp)
    (by intro b hb; rcases List.eq_of_mem_replicate hb with rfl; omega)

/-- C7: with limit 3 and a 1000 ms window, four successive calls for the
same `(action, identifier)` key within the window are allowed, allowed,
allowed, denied; the denied call records no new attempt (the stored list
is unchanged); and once every recorded attempt is at least a full window
old, a further call is allowed again.  The stored timestamp list is
threaded explicitly through the calls. -/
theorem C7_rate_limit (t1 t2 t3 t4 t5 : Int)
    (h12 : t1 ≤ t2) (h23 : t2 ≤ t3) (h34 : t3 ≤ t4)
    (hwin : t4 < t1 + 1000) (h5 : t3 + 1000 ≤ t5) :
    (checkRateLimit [] t1 3 1000).1.allowed = true ∧
    (checkRateLimit [] t1 3 1000).2 = [t1] ∧
    (checkRateLimit [t1] t2 3 1000).1.allowed = true ∧
    (checkRateLimit [t1] t2 3 1000).2 = [t1, t2] ∧
    (checkRateLimit [t1, t2] t3 3 1000).1.allowed = true ∧
    (checkRateLimit [t1, t2] t3 3 1000).2 = [t1, t2, t3] ∧
    (checkRateLimit [t1, t2, t3] t4 3 1000).1.allowed = false ∧
    (checkRateLimit [t1, t2, t3] t4 3 1000).2 = [t1, t2, t3] ∧
    (checkRateLimit [t1, t2, t3] t5 3 1000).1.allowed = true := by
  have hf2 : ([t1] : List Int).filter (fun t => decide (t2 - 1000 < t)) = [t1] := by
    rw [List.filter_eq_self]
    intro a ha
    simp only [List.mem_singleton] at ha
    subst ha
    simp only [decide_eq_true_eq]
    omega
  have hf3 : ([t1, t2] : List Int).filter (fun t => decide (t3 - 1000 < t)) = [t1, t2] := by
    rw [List.filter_eq_self]
    intro a ha
    simp only [List.mem_cons, List.mem_singleton, List.not_mem_nil, or_false] at ha
    simp only [decide_eq_true_eq]
    rcases ha with rfl | rfl
    · omega
    · omega
  have hf4 : ([t1, t2, t3] : List Int).filter (fun t => decide (t4 - 1000 < t)) =
      [t1, t2, t3] := by
    rw [List.filter_eq_self]
    intro a ha
    simp only [List.mem_cons, List.mem_singleton, List.not_mem_nil, or_false] at ha
    simp only [decide_eq_true_eq]
    rcases ha with rfl | rfl | rfl
    · omega
    · omega
    · omega
  have hf5 : ([t1, t2, t3] : List Int).filter (fun t => decide (t5 - 1000 < t)) = [] := by
    rw [List.filter_eq_nil_iff]
    intro a ha
    simp only [List.mem_cons, List.mem_singleton, List.not_mem_nil, or_false] at ha
    simp only [decide_eq_true_eq]
    rcases ha with rfl | rfl | rfl
    · omega
    · omega
    · omega
  refine ⟨?_, ?_, ?_, ?_, ?_, ?_, ?_, ?_, ?_⟩
  · simp [checkRateLimit]
  · simp [checkRateLimit]
  · simp [checkRateLimit, hf2]
  · simp [checkRateLimit, hf2]
  · simp [checkRateLimit, hf3]
  · simp [checkRateLimit, hf3]
  · simp [checkRateLimit, hf4]
  · simp [checkRateLimit, hf4]
  · simp [checkRateLimit, hf5]

theorem C7_rate_limit_witness :
    (checkRateLimit [] 0 3 1000).1.allowed = true ∧
    (checkRateLimit [] 0 3 1000).2 = [0] ∧
    (checkRateLimit [0] 1 3 1000).1.allowed = true ∧
    (checkRateLimit [0] 1 3 1000).2 = [0, 1] ∧
    (checkRateLimit [0, 1] 2 3 1000).1.allowed = true ∧
    (checkRateLimit [0, 1] 2 3 1000).2 = [0, 1, 2] ∧
    (checkRateLimit [0, 1, 2] 3 3 1000).1.allowed = false ∧
    (checkRateLimit [0, 1, 2] 3 3 1000).2 = [0, 1, 2] ∧
    (checkRateLimit [0, 1, 2] 1002 3 1000).1.allowed = true :=
  C7_rate_limit 0 1 2 3 1002 (by decide) (by decide) (by decide)
    (by decide) (by decide)

theorem natDecChars_digits (n : Nat) (h1 : 10 ≤ n) (h2 : n ≤ 35) :
    (natDecChars n).all isDigitCh = true := by
  interval_cases n <;> decide

theorem ibanFold_digits : ∀ ds : List Char, ds.all isDigitCh = true → ∀ r : Nat,
    ds.foldl
      (fun acc c => acc.bind (fun rr => (digitVal c).map (fun dd => (rr * 10 + dd) % 97)))
      (some (r % 97)) =
    some ((ds.foldl (fun rr c => rr * 10 + (c.toNat - 48)) r) % 97) := by
  intro ds
  induction ds with
  | nil => intro _ r; rfl
  | cons c ds ih =>
    intro hall r
    rw [List.all_cons, Bool.and_eq_true] at hall
    obtain ⟨hc, hds⟩ := hall
    simp only [List.foldl_cons]
    have hdv : digitVal c = some (c.toNat - 48) := by simp [digitVal, hc]
    have hstep : ((some (r % 97)).bind
        (fun rr => (digitVal c).map (fun dd => (rr * 10 + dd) % 97))) =
        some ((r % 97 * 10 + (c.toNat - 48)) % 97) := by
      rw [hdv]
      rfl
    have hmod : (r % 97 * 10 + (c.toNat - 48)) % 97 =
        (r * 10 + (c.toNat - 48)) % 97 :=
      ((Nat.mod_modEq r 97).mul_right 10).add_right (c.toNat - 48)
    rw [hstep, hmod]
    exact ih hds (r * 10 + (c.toNat - 48))

theorem ibanNumericChars_digits (s : List Char)
    (hall : (cleanIBAN s).all (fun c => isDigitCh c || isUpperAZ c) = true) :
    (ibanNumericChars s).all isDigitCh = true := by
  simp only [ibanNumericChars]
  rw [List.all_eq_true]
  intro c hc
  rcases List.mem_flatten.mp hc with ⟨l, hl, hcl⟩
  rcases List.mem_map.mp hl with ⟨ch, hch, rfl⟩
  have hch2 : ch ∈ cleanIBAN s := by
    rcases List.mem_append.mp hch with h1 | h1
    · exact List.drop_subset _ _ h1
    · exact List.take_subset _ _ h1
  have hclass := (List.all_eq_true.mp hall) ch hch2
  simp only [Bool.or_eq_true] at hclass
  by_cases hu : isUpperAZ ch = true
  · rw [if_pos hu] at hcl
    have hrange : 10 ≤ ch.toNat - 55 ∧ ch.toNat - 55 ≤ 35 := by
      simp only [isUpperAZ, Bool.and_eq_true, decide_eq_true_eq] at hu
      omega
    exact (List.all_eq_true.mp (natDecChars_digits _ hrange.1 hrange.2)) c hcl
  · rw [if_neg hu] at hcl
    simp only [List.mem_singleton] at hcl
    subst hcl
    rcases hclass with h1 | h1
    · exact h1
    · exact absurd h1 hu

/-- C6: `validateIBANChecksum s` is true exactly when the ISO 7064
MOD-97-10 procedure of the claim (strip spaces, uppercase, move the
first 4 characters to the end, map each letter to the two digits
`ord - 55`, read the digit string as a decimal number) gives remainder 1
modulo 97, for every input whose cleaned form is alphanumeric (on other
inputs `parseInt` yields NaN and the reading is undefined); in
particular the real IBAN `DE89370400440532013000` passes, and changing
any single digit of it to a different digit fails. -/
theorem C6_iban_checksum :
    (∀ s : List Char,
      (cleanIBAN s).all (fun c => isDigitCh c || isUpperAZ c) = true →
      (validateIBANChecksum s = true ↔ ibanClaimNumber s % 97 = 1)) ∧
    validateIBANChecksum "DE89370400440532013000".data = true ∧
    (∀ i : Fin 22, ∀ d : Fin 10,
      isDigitCh ("DE89370400440532013000".data.getD i.1 'X') = true →
      digitChar d.1 ≠ "DE89370400440532013000".data.getD i.1 'X' →
      validateIBANChecksum ("DE89370400440532013000".data.set i.1 (digitChar d.1)) = false) := by
  refine ⟨?_, by decide, by decide⟩
  intro s hall
  have hnum := ibanNumericChars_digits s hall
  have hfold := ibanFold_digits (ibanNumericChars s) hnum 0
  rw [Nat.zero_mod] at hfold
  unfold validateIBANChecksum
  rw [hfold]
  simp [ibanClaimNumber, beq_iff_eq]

theorem C6_iban_checksum_witness :
    validateIBANChecksum "DE89370400440532013000".data = true ↔
      ibanClaimNumber "DE89370400440532013000".data % 97 = 1 :=
  C6_iban_checksum.1 "DE89370400440532013000".data (by decide)

theorem removeSubGo_sublist (p : Char) (ps : List Char) :
    ∀ (f : Nat) (s : List Char), (removeSubGo p ps f s).Sublist s := by
  intro f
  induction f with
  | zero => intro s; exact List.Sublist.refl s
  | succ f ih =>
    intro s
    cases s with
    | nil => exact List.Sublist.refl []
    | cons c rest =>
      by_cases hm : matchCI (p :: ps) (c :: rest) = true
      · rw [removeSubGo, if_pos hm]
        exact (ih _).trans (List.drop_sublist _ _)
      · rw [removeSubGo, if_neg hm]
        exact (ih rest).cons₂ c

theorem removeSubCI_sublist (p : Char) (ps : List Char) (s : List Char) :
    (removeSubCI p ps s).Sublist s :=
  removeSubGo_sublist p ps s.length s

theorem foldl_removeSub_sublist (pats : List (Char × List Char)) :
    ∀ s : List Char,
      (pats.foldl (fun s pp => removeSubCI pp.1 pp.2 s) s).Sublist s := by
  induction pats with
  | nil => intro s; exact List.Sublist.refl s
  | cons pp pats ih =>
    intro s
    simp only [List.foldl_cons]
    exact (ih _).trans (removeSubCI_sublist pp.1 pp.2 s)

/-- C8 (amended): the sanitizer output never contains a denylisted
character (angle bracket, quote, semicolon, parenthesis, brace or
square bracket); the substring passes remove the occurrences found in
their own input, but sequential removal can concatenate the surrounding
fragments into a new occurrence, so a banned substring can survive (see
the counterexample). -/
theorem C8_sanitize_no_banned_chars (inp : List Char) (c : Char)
    (h : c ∈ sanitizeInput inp) : c ∉ bannedChars := by
  have h6 : c ∈ stripChars (jsTrim inp) :=
    (foldl_removeSub_sublist denyPatterns (stripChars (jsTrim inp))).subset h
  simp only [stripChars, List.mem_filter] at h6
  intro hb
  simp only [bannedChars, List.mem_map] at hb
  rcases hb with ⟨n, hn, rfl⟩
  fin_cases hn <;> simp_all

/-- C8 counterexample: the claim asserts the output never contains
"script", but `sanitizeInput "scrscriptipt"` is `"script"`: the single
removal pass deletes the inner occurrence and concatenates `scr` with
`ipt` into a fresh occurrence that no later pass removes. -/
theorem C8_sanitize_counterexample :
    sanitizeInput "scrscriptipt".data = "script".data ∧
    hasSubCI 's' "cript".data (sanitizeInput "scrscriptipt".data) = true := by
  constructor
  · decide
  · decide

theorem C8_sanitize_no_banned_chars_witness : 'a' ∉ bannedChars :=
  C8_sanitize_no_banned_chars "abc".data 'a' (by decide)

/-- A record passing `validateUserData`, used to instantiate claims. -/
def sampleRecord : JMap :=
  [("firstName".data, Json.str "Ann".data),
   ("lastName".data, Json.str "Lee".data),
   ("email".data, Json.str "ann@gmail.com".data),
   ("phone".data, Json.str "123456".data),
   ("shippingAddress".data, Json.str "Main Street 5".data),
   ("iban".data, Json.str "DE89370400440532013000".data),
   ("bic".data, Json.str "DEUTDEFF".data),
   ("bankAccountOwner".data, Json.str "Ann Lee".data),
   ("password".data, Json.str "Passw0rd".data),
   ("termsAccepted".data, Json.bool true),
   ("privacyAccepted".data, Json.bool true)]

theorem updateSession_userData (st : Store) (now : Int) (b : Bool) :
    (updateSession st now b).userData = st.userData := by
  unfold updateSession
  cases st.session <;> rfl

theorem updateSession_some (st : Store) (now : Int) (b : Bool) (sess : Session)
    (hs : st.session = some sess) :
    (updateSession st now b).session =
      some { sess with lastActivity := now, isActive := b } := by
  unfold updateSession
  rw [hs]

theorem storeUserData_fail (st : Store) (now : Int) (r : JMap) (p : List Char)
    (salt iv : List Nat) (hv : validateUserData r = false) :
    storeUserData st now r p salt iv =
      (st, { success := false, sessionId := none, errMsg := some invalidDataMsg }) := by
  simp [storeUserData, hv]

/-- The envelope core `storeUserData` assembles (encrypted sensitive
unit, non-sensitive fields, hashed password, metadata, `storedAt`,
`version`). -/
def builtCore (r : JMap) (p : List Char) (now : Int) (salt iv : List Nat) :
    EnvelopeCore :=
  { encryptedData := encryptUserData (Json.obj (sensitiveOf r)) p salt iv
  , nonSensitiveData := nonSensitiveOf r now
  , hashedPassword := hashPassword p
  , securityMetadata := securityMetadataOf now
  , storedAt := now
  , version := "1.0".data }

theorem storeUserData_state (st : Store) (now : Int) (r : JMap) (p : List Char)
    (salt iv : List Nat) (hv : validateUserData r = true) :
    (storeUserData st now r p salt iv).1 =
      updateSession
        { st with userData := some ⟨builtCore r p now salt iv,
            generateDataHash (builtCore r p now salt iv)⟩ } now true := by
  unfold storeUserData
  rw [if_pos hv]
  simp only [prepareSecureData, builtCore]
  split <;> rfl

theorem storeUserData_success (st : Store) (now : Int) (r : JMap) (p : List Char)
    (salt iv : List Nat) (sess : Session)
    (hs : st.session = some sess) (hv : validateUserData r = true) :
    (storeUserData st now r p salt iv).2 =
      { success := true, sessionId := some sess.sessionId, errMsg := none } := by
  unfold storeUserData
  rw [if_pos hv]
  simp [updateSession, hs]

/-- The structural record validity exactly as the amended claim states
it: the eight fields firstName, lastName, email, shippingAddress, iban,
bic, bankAccountOwner, password present as non-empty strings (phone is
not checked), and email, IBAN and BIC passing their format regexes. -/
def specRecordValid (r : JMap) : Prop :=
  (∀ f ∈ requiredFields, ∃ s, lookupJ r f = some (Json.str s) ∧ s ≠ []) ∧
  validateEmail (strFieldOf r "email".data) = true ∧
  validateIBAN (strFieldOf r "iban".data) = true ∧
  validateBIC (strFieldOf r "bic".data) = true

theorem isNonEmptyStringField_iff (v : Option Json) :
    isNonEmptyStringField v = true ↔ ∃ s, v = some (Json.str s) ∧ s ≠ [] := by
  cases v with
  | none => simp [isNonEmptyStringField]
  | some j => cases j <;> simp [isNonEmptyStringField]

theorem validateUserData_iff (r : JMap) :
    validateUserData r = true ↔ specRecordValid r := by
  unfold validateUserData specRecordValid
  simp only [Bool.and_eq_true, List.all_eq_true]
  constructor
  · rintro ⟨⟨⟨h1, h2⟩, h3⟩, h4⟩
    exact ⟨fun f hf => (isNonEmptyStringField_iff _).mp (h1 f hf), h2, h3, h4⟩
  · rintro ⟨h1, h2, h3, h4⟩
    exact ⟨⟨⟨fun f hf => (isNonEmptyStringField_iff _).mpr (h1 f hf), h2⟩, h3⟩, h4⟩

/-- C3 (amended): with a session present, `storeUserData(r, p)` returns
a failure result exactly when `r` fails the structural validation over
the eight fields firstName, lastName, email, shippingAddress, iban,
bic, bankAccountOwner, password (phone is not among them) or one of the
email / IBAN / BIC format checks fails; otherwise it succeeds. -/
theorem C3_store_reject_iff (st : Store) (sess : Session) (now : Int) (r : JMap)
    (p : List Char) (salt iv : List Nat) (hs : st.session = some sess) :
    (storeUserData st now r p salt iv).2.success = false ↔ ¬ specRecordValid r := by
  cases hv : validateUserData r with
  | true =>
    rw [storeUserData_success st now r p salt iv sess hs hv]
    simp only [Bool.true_eq_false, false_iff, not_not]
    exact (validateUserData_iff r).mp hv
  | false =>
    rw [storeUserData_fail st now r p salt iv hv]
    simp only [true_iff]
    intro hspec
    rw [(validateUserData_iff r).mpr hspec] at hv
    cases hv

theorem C3_store_reject_iff_witness :
    (storeUserData ⟨none, some ⟨[], 0, 0, false⟩⟩ 0 [] "pw".data
      (List.replicate 32 0) (List.replicate 12 0)).2.success = false ↔
      ¬ specRecordValid [] :=
  C3_store_reject_iff ⟨none, some ⟨[], 0, 0, false⟩⟩ ⟨[], 0, 0, false⟩ 0 []
    "pw".data (List.replicate 32 0) (List.replicate 12 0) rfl

/-- The validity condition exactly as C3 originally states it: the
eight fields firstName, lastName, email, phone, shippingAddress, iban,
bic, bankAccountOwner present as non-empty strings and the three format
checks passing. -/
def claimC3Valid (r : JMap) : Bool :=
  sensitiveFields.all (fun f => isNonEmptyStringField (lookupJ r f)) &&
    validateEmail (strFieldOf r "email".data) &&
    validateIBAN (strFieldOf r "iban".data) &&
    validateBIC (strFieldOf r "bic".data)

/-- C3 counterexample: a record with the claim's eight fields (including
phone) all valid, but no password field.  The claim says the store
proceeds; the code rejects it, because `validateUserData` requires
`password` and does not check `phone`. -/
theorem C3_store_reject_counterexample :
    claimC3Valid
      [("firstName".data, Json.str "Ann".data),
       ("lastName".data, Json.str "Lee".data),
       ("email".data, Json.str "ann@gmail.com".data),
       ("phone".data, Json.str "123456".data),
       ("shippingAddress".data, Json.str "Main Street 5".data),
       ("iban".data, Json.str "DE89370400440532013000".data),
       ("bic".data, Json.str "DEUTDEFF".data),
       ("bankAccountOwner".data, Json.str "Ann Lee".data)] = true ∧
    (storeUserData ⟨none, some ⟨[], 0, 0, false⟩⟩ 0
      [("firstName".data, Json.str "Ann".data),
       ("lastName".data, Json.str "Lee".data),
       ("email".data, Json.str "ann@gmail.com".data),
       ("phone".data, Json.str "123456".data),
       ("shippingAddress".data, Json.str "Main Street 5".data),
       ("iban".data, Json.str "DE89370400440532013000".data),
       ("bic".data, Json.str "DEUTDEFF".data),
       ("bankAccountOwner".data, Json.str "Ann Lee".data)]
      "pw".data (List.replicate 32 0) (List.replicate 12 0)).2.success = false := by
  constructor
  · decide
  · rw [storeUserData_fail _ _ _ _ _ _ (by decide)]

/-- C5 (amended): when a session is present in storage, a failing
`storeUserData` call leaves the stored state (envelope and session)
exactly as it was: with a session the only failure path is the
validation rejection, which returns before anything is written.  Without
a session the code first persists the envelope and then fails on
`getSession().sessionId` (see the counterexample). -/
theorem C5_store_fail_no_mutation (st : Store) (sess : Session) (now : Int)
    (r : JMap) (p : List Char) (salt iv : List Nat)
    (hs : st.session = some sess)
    (hf : (storeUserData st now r p salt iv).2.success = false) :
    (storeUserData st now r p salt iv).1 = st := by
  cases hv : validateUserData r with
  | true =>
    rw [storeUserData_success st now r p salt iv sess hs hv] at hf
    cases hf
  | false =>
    rw [storeUserData_fail st now r p salt iv hv]

theorem C5_store_fail_no_mutation_witness :
    (storeUserData ⟨none, some ⟨[], 0, 0, false⟩⟩ 0 [] "pw".data
      (List.replicate 32 0) (List.replicate 12 0)).1 =
      (⟨none, some ⟨[], 0, 0, false⟩⟩ : Store) :=
  C5_store_fail_no_mutation ⟨none, some ⟨[], 0, 0, false⟩⟩ ⟨[], 0, 0, false⟩ 0 []
    "pw".data (List.replicate 32 0) (List.replicate 12 0) rfl
    (by rw [storeUserData_fail _ _ _ _ _ _ (by decide)])

/-- C5 counterexample: with a valid record but no stored session,
`storeUserData` persists the envelope, then `updateSession` is a no-op
and `this.getSession().sessionId` throws, so the call returns a failure
result even though the persisted envelope changed from absent to
present - the store is not atomic on this failure path. -/
theorem C5_store_fail_counterexample :
    (storeUserData ⟨none, none⟩ 0 sampleRecord "pw".data
      (List.replicate 32 0) (List.replicate 12 0)).2.success = false ∧
    ((storeUserData ⟨none, none⟩ 0 sampleRecord "pw".data
      (List.replicate 32 0) (List.replicate 12 0)).1.userData).isSome = true ∧
    (⟨none, none⟩ : Store).userData = none := by
  have hv : validateUserData sampleRecord = true := by decide
  refine ⟨?_, ?_, rfl⟩
  · unfold storeUserData
    rw [if_pos hv]
    simp [updateSession]
  · rw [storeUserData_state _ _ _ _ _ _ hv]
    simp [updateSession, updateSession_userData]

theorem retrieve_env (st : Store) (env : Envelope) (p : List Char) (now2 : Int)
    (dec : Json) (hud : st.userData = some env)
    (hint : verifyDataIntegrity env.core env.dataHash = true)
    (hdec : decryptUserData env.core.encryptedData p = some dec) :
    retrieveUserData st p now2 =
      (updateSession st now2 true,
        { success := true
        , data := some (mergeJs (spreadOf dec) env.core.nonSensitiveData)
        , errMsg := none }, true) := by
  unfold retrieveUserData
  rw [hud]
  simp [hint, hdec]

theorem retrieve_after_store (st : Store) (now now2 : Int) (r : JMap)
    (p : List Char) (salt iv : List Nat) (hv : validateUserData r = true)
    (hsalt : salt.length = 32) (hiv : iv.length = 12) :
    retrieveUserData (storeUserData st now r p salt iv).1 p now2 =
      (updateSession (storeUserData st now r p salt iv).1 now2 true,
        { success := true
        , data := some (mergeJs (sensitiveOf r) (nonSensitiveOf r now))
        , errMsg := none }, true) := by
  have h1 : (storeUserData st now r p salt iv).1.userData =
      some ⟨builtCore r p now salt iv,
        generateDataHash (builtCore r p now salt iv)⟩ := by
    rw [storeUserData_state st now r p salt iv hv, updateSession_userData]
  have hint : verifyDataIntegrity (builtCore r p now salt iv)
      (generateDataHash (builtCore r p now salt iv)) = true := by
    simp [verifyDataIntegrity]
  have hdec : decryptUserData (builtCore r p now salt iv).encryptedData p =
      some (Json.obj (sensitiveOf r)) := decrypt_encrypt _ _ _ _ hsalt hiv
  exact retrieve_env _ _ p now2 _ h1 hint hdec

theorem update_after_store (st : Store) (now now2 : Int) (r u : JMap)
    (p : List Char) (salt iv salt2 iv2 : List Nat)
    (hv : validateUserData r = true)
    (hsalt : salt.length = 32) (hiv : iv.length = 12) :
    updateUserData (storeUserData st now r p salt iv).1 now2 u p salt2 iv2 =
      storeUserData (updateSession (storeUserData st now r p salt iv).1 now2 true)
        now2 (mergeJs (mergeJs (sensitiveOf r) (nonSensitiveOf r now)) u) p salt2 iv2 := by
  unfold updateUserData
  rw [retrieve_after_store st now now2 r p salt iv hv hsalt hiv]
  simp

theorem lookupJ_append (a b : JMap) (k : List Char) :
    lookupJ (a ++ b) k = orO (lookupJ a k) (lookupJ b k) := by
  induction a with
  | nil => simp [lookupJ, orO]
  | cons kv a ih =>
    by_cases hk : kv.1 = k
    · simp [lookupJ, hk, orO]
    · simp [lookupJ, hk, ih]

theorem lookupJ_map_patch (a b : JMap) (k : List Char) :
    lookupJ (a.map (fun kv => (kv.1, (lookupJ b kv.1).getD kv.2))) k =
      (lookupJ a k).map (fun v => (lookupJ b k).getD v) := by
  induction a with
  | nil => rfl
  | cons kv a ih =>
    by_cases hk : kv.1 = k
    · subst hk
      simp [lookupJ]
    · simp [lookupJ, hk, ih]

theorem lookupJ_filter_none (a b : JMap) (k : List Char) :
    lookupJ (b.filter (fun kv => (lookupJ a kv.1).isNone)) k =
      if (lookupJ a k).isSome then none else lookupJ b k := by
  induction b with
  | nil =>
    cases lookupJ a k <;> simp [lookupJ]
  | cons kv b ih =>
    by_cases hk : kv.1 = k
    · subst hk
      cases ha : lookupJ a kv.1 with
      | none => simp [List.filter_cons, ha, lookupJ, ih]
      | some v => simp [List.filter_cons, ha, lookupJ, ih]
    · cases hp : (lookupJ a kv.1).isNone with
      | true => simp [List.filter_cons, hp, lookupJ, hk, ih]
      | false => simp [List.filter_cons, hp, lookupJ, hk, ih]

theorem lookupJ_mergeJs (a b : JMap) (k : List Char) :
    lookupJ (mergeJs a b) k = orO (lookupJ b k) (lookupJ a k) := by
  unfold mergeJs
  rw [lookupJ_append, lookupJ_map_patch, lookupJ_filter_none]
  cases ha : lookupJ a k <;> cases hb : lookupJ b k <;> simp [orO]

theorem lookupJ_filterMap_not_mem (fs : List (List Char)) (m : JMap)
    (f : List Char) (hf : f ∉ fs) :
    lookupJ (fs.filterMap (fun g => (lookupJ m g).map (fun v => (g, v)))) f = none := by
  induction fs with
  | nil => rfl
  | cons g fs ih =>
    have hne : g ≠ f := fun h => hf (by simp [h])
    have hf2 : f ∉ fs := fun h => hf (by simp [h])
    cases hg : lookupJ m g with
    | none => simp [List.filterMap_cons, hg, ih hf2]
    | some v => simp [List.filterMap_cons, hg, lookupJ, hne, ih hf2]

theorem lookupJ_filterMap_fields : ∀ (fs : List (List Char)) (m : JMap) (f : List Char),
    fs.Nodup → f ∈ fs →
    lookupJ (fs.filterMap (fun g => (lookupJ m g).map (fun v => (g, v)))) f =
      lookupJ m f := by
  intro fs
  induction fs with
  | nil => intro m f _ hf; cases hf
  | cons g fs ih =>
    intro m f hnd hf
    rw [List.nodup_cons] at hnd
    rcases List.mem_cons.mp hf with rfl | hf2
    · cases hg : lookupJ m f with
      | none =>
        have h2 := lookupJ_filterMap_not_mem fs m f hnd.1
        simp [List.filterMap_cons, hg, h2]
      | some v =>
        simp [List.filterMap_cons, hg, lookupJ]
    · have hne : g ≠ f := fun h => hnd.1 (h ▸ hf2)
      cases hg : lookupJ m g with
      | none => simp [List.filterMap_cons, hg, ih m f hnd.2 hf2]
      | some v => simp [List.filterMap_cons, hg, lookupJ, hne, ih m f hnd.2 hf2]

theorem lookupJ_nonSensitiveOf (u : JMap) (now : Int) (f : List Char)
    (hf : f ∈ sensitiveFields) :
    lookupJ (nonSensitiveOf u now) f = none := by
  fin_cases hf <;>
    cases h1 : lookupJ u "termsAccepted".data <;>
      cases h2 : lookupJ u "privacyAccepted".data <;>
        simp [nonSensitiveOf, optEntry, h1, h2, lookupJ]

/-- C4 (amended): for an envelope stored with password `p` by
`storeUserData` (session present), `updateUserData(u, p)` succeeds
exactly when the merged record - the retrieved logical record with the
fields of `u` overriding - passes the structural validation
(`validateUserData`, which in particular demands a `password` field the
retrieved record does not contain); when it succeeds, the sensitive
fields retrievable afterwards equal the previously stored record's with
the same-named fields of `u` overriding, while the non-sensitive fields
are regenerated by the new store (fresh `registrationDate`,
`emailVerified` false, `accountStatus` pending_verification). -/
theorem C4_update_merge (st : Store) (sess : Session) (now now2 now3 : Int)
    (r u : JMap) (p : List Char) (salt iv salt2 iv2 : List Nat)
    (hs : st.session = some sess) (hv : validateUserData r = true)
    (h1 : salt.length = 32) (h2 : iv.length = 12)
    (h3 : salt2.length = 32) (h4 : iv2.length = 12) :
    ((updateUserData (storeUserData st now r p salt iv).1 now2 u p salt2 iv2).2.success =
      validateUserData (mergeJs (mergeJs (sensitiveOf r) (nonSensitiveOf r now)) u)) ∧
    (validateUserData (mergeJs (mergeJs (sensitiveOf r) (nonSensitiveOf r now)) u) = true →
      ∀ f ∈ sensitiveFields,
        lookupJ (((retrieveUserData
            (updateUserData (storeUserData st now r p salt iv).1 now2 u p salt2 iv2).1
            p now3).2.1.data).getD []) f =
          orO (lookupJ u f) (lookupJ r f)) := by
  have hupd := update_after_store st now now2 r u p salt iv salt2 iv2 hv h1 h2
  have hsess1 : (storeUserData st now r p salt iv).1.session =
      some { sess with lastActivity := now, isActive := true } := by
    rw [storeUserData_state st now r p salt iv hv]
    exact updateSession_some _ _ _ _ hs
  have hsess2 :
      (updateSession (storeUserData st now r p salt iv).1 now2 true).session =
      some { { sess with lastActivity := now, isActive := true } with
        lastActivity := now2, isActive := true } :=
    updateSession_some _ _ _ _ hsess1
  constructor
  · rw [hupd]
    cases hv2 : validateUserData
        (mergeJs (mergeJs (sensitiveOf r) (nonSensitiveOf r now)) u) with
    | true =>
      rw [storeUserData_success _ _ _ _ _ _ _ hsess2 hv2]
    | false =>
      rw [storeUserData_fail _ _ _ _ _ _ hv2]
  · intro hv2 f hf
    rw [hupd]
    rw [retrieve_after_store _ now2 now3 _ p salt2 iv2 hv2 h3 h4]
    simp only [Option.getD_some]
    rw [lookupJ_mergeJs, lookupJ_nonSensitiveOf _ _ _ hf]
    unfold sensitiveOf
    rw [lookupJ_filterMap_fields sensitiveFields _ f (by decide) hf]
    rw [lookupJ_mergeJs, lookupJ_mergeJs, lookupJ_nonSensitiveOf _ _ _ hf]
    rw [lookupJ_filterMap_fields sensitiveFields _ f (by decide) hf]
    cases lookupJ u f <;> cases lookupJ r f <;> simp [orO]

theorem C4_update_merge_witness :
    ((updateUserData
        (storeUserData ⟨none, some ⟨[], 0, 0, false⟩⟩ 0 sampleRecord "pw".data
          (List.replicate 32 0) (List.replicate 12 0)).1 1
        [("password".data, Json.str "Newpass1".data)] "pw".data
        (List.replicate 32 0) (List.replicate 12 0)).2.success =
      validateUserData
        (mergeJs (mergeJs (sensitiveOf sampleRecord) (nonSensitiveOf sampleRecord 0))
          [("password".data, Json.str "Newpass1".data)])) ∧
    (∀ f ∈ sensitiveFields,
      lookupJ (((retrieveUserData
          (updateUserData
            (storeUserData ⟨none, some ⟨[], 0, 0, false⟩⟩ 0 sampleRecord "pw".data
              (List.replicate 32 0) (List.replicate 12 0)).1 1
            [("password".data, Json.str "Newpass1".data)] "pw".data
            (List.replicate 32 0) (List.replicate 12 0)).1
          "pw".data 2).2.1.data).getD []) f =
        orO (lookupJ [("password".data, Json.str "Newpass1".data)] f)
          (lookupJ sampleRecord f)) :=
  ⟨(C4_update_merge ⟨none, some ⟨[], 0, 0, false⟩⟩ ⟨[], 0, 0, false⟩ 0 1 2
      sampleRecord [("password".data, Json.str "Newpass1".data)] "pw".data
      (List.replicate 32 0) (List.replicate 12 0)
      (List.replicate 32 0) (List.replicate 12 0)
      rfl (by decide) (by simp) (by simp) (by simp) (by simp)).1,
    (C4_update_merge ⟨none, some ⟨[], 0, 0, false⟩⟩ ⟨[], 0, 0, false⟩ 0 1 2
      sampleRecord [("password".data, Json.str "Newpass1".data)] "pw".data
      (List.replicate 32 0) (List.replicate 12 0)
      (List.replicate 32 0) (List.replicate 12 0)
      rfl (by decide) (by simp) (by simp) (by simp) (by simp)).2 (by decide)⟩

/-- C4 counterexample: a record stored successfully with password `pw`;
the claim says `updateUserData(u, pw)` succeeds for every field map `u`,
but with `u = {}` the call fails: the retrieved record has no `password`
field (the stored sensitive unit does not include it), so the merged
record is rejected by the structural validation of the second store. -/
theorem C4_update_counterexample :
    (storeUserData ⟨none, some ⟨[], 0, 0, false⟩⟩ 0 sampleRecord "pw".data
      (List.replicate 32 0) (List.replicate 12 0)).2.success = true ∧
    (updateUserData
      (storeUserData ⟨none, some ⟨[], 0, 0, false⟩⟩ 0 sampleRecord "pw".data
        (List.replicate 32 0) (List.replicate 12 0)).1 1 [] "pw".data
      (List.replicate 32 0) (List.replicate 12 0)).2.success = false := by
  have hv : validateUserData sampleRecord = true := by decide
  constructor
  · rw [storeUserData_success _ _ _ _ _ _ ⟨[], 0, 0, false⟩ rfl hv]
  · rw [update_after_store _ _ _ _ _ _ _ _ _ _ hv (by simp) (by simp)]
    rw [storeUserData_fail _ _ _ _ _ _ (by decide)]
